import Mathlib

/-
Verification development for the pmsite project-configuration synthesizer.

The repository contains a single descriptor script (src/scripts/configure.py)
that drives an external scaffolding engine (rvscaffold).  The engine itself
is not part of the repository sources, so its data model and operations are
modelled here from the specification; the descriptor data (repository name,
javadoc toggle, documentation links, dependency requests) is embedded
directly from configure.py.  Files are modelled as lists of text lines.
-/

namespace PmSite

/-- Modelled from the spec: a Coordinate Registry Entry value, a
fully-qualified dependency identifier with group, artifact and version
(the optional exclusion set is not needed by any claim and is omitted). -/
structure Coordinate where
  group : String
  artifact : String
  version : String
deriving DecidableEq

/-- Modelled from the spec: the Coordinate Registry, a catalog mapping
symbolic dependency names to pinned coordinates, kept as an association
list whose invariant is exactly one entry per symbolic name. -/
abbrev Registry := List (String × Coordinate)

/-- Modelled from the spec: exact-match lookup of a symbolic name in the
registry; no fuzzy resolution. -/
def resolve (r : Registry) (n : String) : Option Coordinate :=
  match r with
  | [] => none
  | (m, c) :: rest => if m = n then some c else resolve rest n

/-- Modelled from the spec: adding or overriding an entry at runtime
replaces any prior entry for that name; last write wins. -/
def addEntry (r : Registry) (n : String) (c : Coordinate) : Registry :=
  (n, c) :: r.filter (fun p => p.1 ≠ n)

/-- Modelled from the spec: a dependency request is either a symbolic name
resolved via the registry, or an explicit fully-qualified coordinate
supplied verbatim. -/
inductive DepRequest where
  | symbolic (name : String)
  | explicitCoord (coord : Coordinate)
deriving DecidableEq

/-- Modelled from the spec: the error kinds the engine can raise that the
claims mention. -/
inductive GenError where
  | unresolvedDependency (name : String)
  | markerCorruption
deriving DecidableEq

/-- Modelled from the spec: the Descriptor Model, the in-memory record of
one project's declared identity, dependency requests, documentation links
and lifecycle toggles. -/
structure Descriptor where
  repositoryName : String
  prettyName : String
  inceptionYear : Nat
  jdkVersion : Nat
  hasJavadoc : Bool
  deps : List DepRequest
  docLinks : List String
deriving DecidableEq

/-- Modelled from the spec: resolving one dependency request: registry
lookup for symbolic names, pass-through for explicit coordinates; a
symbolic name absent from the registry is a fatal configuration error
reported with the offending symbolic name. -/
def resolveDep (r : Registry) (d : DepRequest) : Except GenError Coordinate :=
  match d with
  | .explicitCoord c => .ok c
  | .symbolic n =>
    match resolve r n with
    | some c => .ok c
    | none => .error (.unresolvedDependency n)

/-- Modelled from the spec: resolving all dependency requests left to
right, aborting on the first unresolvable one. -/
def resolveAll (r : Registry) : List DepRequest → Except GenError (List Coordinate)
  | [] => .ok []
  | d :: ds =>
    match resolveDep r d with
    | .error e => .error e
    | .ok c =>
      match resolveAll r ds with
      | .error e => .error e
      | .ok cs => .ok (c :: cs)

/-- Three-way comparison of characters by code point. -/
def charCmp (a b : Char) : Ordering :=
  if a.toNat < b.toNat then .lt
  else if b.toNat < a.toNat then .gt
  else .eq

/-- Generic lexicographic three-way comparison of lists. -/
def lexCmp (f : α → α → Ordering) : List α → List α → Ordering
  | [], [] => .eq
  | [], _ :: _ => .lt
  | _ :: _, [] => .gt
  | a :: as, b :: bs =>
    match f a b with
    | .lt => .lt
    | .gt => .gt
    | .eq => lexCmp f as bs

/-- Three-way lexicographic comparison of strings by code point. -/
def strCmp (a b : String) : Ordering := lexCmp charCmp a.data b.data

/-- The sort-key fields of a coordinate: group first, then artifact, then
version as the final tiebreaker. -/
def coordFields (a : Coordinate) : List String := [a.group, a.artifact, a.version]

/-- Three-way comparison of coordinates in the manifest ordering. -/
def coordCmp (a b : Coordinate) : Ordering :=
  lexCmp strCmp (coordFields a) (coordFields b)

/-- The manifest ordering relation the renderer sorts by: group, then
artifact, then version. -/
def CoordLE (a b : Coordinate) : Prop := coordCmp a b ≠ .gt

instance : DecidableRel CoordLE :=
  fun a b => inferInstanceAs (Decidable (coordCmp a b ≠ .gt))

theorem charCmp_eq_iff (a b : Char) : charCmp a b = .eq ↔ a = b := by
  by_cases h1 : a.toNat < b.toNat
  · simp only [charCmp, if_pos h1]
    constructor
    · intro h
      exact Ordering.noConfusion h
    · intro h
      subst h
      omega
  · by_cases h2 : b.toNat < a.toNat
    · simp only [charCmp, if_neg h1, if_pos h2]
      constructor
      · intro h
        exact Ordering.noConfusion h
      · intro h
        subst h
        omega
    · have he : a.toNat = b.toNat := by omega
      have hab : a = b := Char.eq_of_val_eq (UInt32.toNat.inj he)
      simp [charCmp, h1, h2, hab]

theorem charCmp_swap (a b : Char) : (charCmp a b).swap = charCmp b a := by
  by_cases h1 : a.toNat < b.toNat
  · have h2 : ¬ b.toNat < a.toNat := by omega
    simp [charCmp, h1, h2, Ordering.swap]
  · by_cases h2 : b.toNat < a.toNat
    · simp [charCmp, h1, h2, Ordering.swap]
    · simp [charCmp, h1, h2, Ordering.swap]

theorem charCmp_lt_iff (a b : Char) : charCmp a b = .lt ↔ a.toNat < b.toNat := by
  by_cases h1 : a.toNat < b.toNat
  · simp [charCmp, h1]
  · by_cases h2 : b.toNat < a.toNat
    · simp [charCmp, h1, h2]
    · simp [charCmp, h1, h2]

theorem charCmp_lt_trans {a b c : Char}
    (h1 : charCmp a b = .lt) (h2 : charCmp b c = .lt) : charCmp a c = .lt := by
  rw [charCmp_lt_iff] at h1 h2 ⊢
  omega

theorem lexCmp_eq_iff {f : α → α → Ordering}
    (hf : ∀ a b, f a b = .eq ↔ a = b) :
    ∀ x y : List α, lexCmp f x y = .eq ↔ x = y := by
  intro x
  induction x with
  | nil =>
    intro y
    cases y <;> simp [lexCmp]
  | cons a as ih =>
    intro y
    cases y with
    | nil => simp [lexCmp]
    | cons b bs =>
      cases hab : f a b with
      | lt =>
        simp only [lexCmp, hab]
        constructor
        · intro h
          exact Ordering.noConfusion h
        · intro h
          injection h with h1 h2
          subst h1
          rw [(hf a a).mpr rfl] at hab
          exact Ordering.noConfusion hab
      | gt =>
        simp only [lexCmp, hab]
        constructor
        · intro h
          exact Ordering.noConfusion h
        · intro h
          injection h with h1 h2
          subst h1
          rw [(hf a a).mpr rfl] at hab
          exact Ordering.noConfusion hab
      | eq =>
        have hab' : a = b := (hf a b).mp hab
        subst hab'
        simp [lexCmp, hab, ih bs]

theorem lexCmp_swap {f : α → α → Ordering}
    (hf : ∀ a b, (f a b).swap = f b a) :
    ∀ x y : List α, (lexCmp f x y).swap = lexCmp f y x := by
  intro x
  induction x with
  | nil =>
    intro y
    cases y <;> simp [lexCmp, Ordering.swap]
  | cons a as ih =>
    intro y
    cases y with
    | nil => simp [lexCmp, Ordering.swap]
    | cons b bs =>
      cases hab : f a b with
      | lt =>
        have hba : f b a = .gt := by
          rw [← hf a b, hab]
          rfl
        simp [lexCmp, hab, hba, Ordering.swap]
      | gt =>
        have hba : f b a = .lt := by
          rw [← hf a b, hab]
          rfl
        simp [lexCmp, hab, hba, Ordering.swap]
      | eq =>
        have hba : f b a = .eq := by
          rw [← hf a b, hab]
          rfl
        simp [lexCmp, hab, hba, ih bs]

theorem lexCmp_lt_trans {f : α → α → Ordering}
    (hf_eq : ∀ a b, f a b = .eq ↔ a = b)
    (hf_trans : ∀ a b c, f a b = .lt → f b c = .lt → f a c = .lt) :
    ∀ x y z : List α, lexCmp f x y = .lt → lexCmp f y z = .lt →
      lexCmp f x z = .lt := by
  intro x
  induction x with
  | nil =>
    intro y z hxy hyz
    cases z with
    | cons c cs => simp [lexCmp]
    | nil =>
      cases y with
      | nil => simp [lexCmp] at hyz
      | cons b bs => simp [lexCmp] at hyz
  | cons a as ih =>
    intro y z hxy hyz
    cases y with
    | nil => simp [lexCmp] at hxy
    | cons b bs =>
      cases z with
      | nil => simp [lexCmp] at hyz
      | cons c cs =>
        cases hab : f a b with
        | gt => simp [lexCmp, hab] at hxy
        | lt =>
          cases hbc : f b c with
          | gt => simp [lexCmp, hbc] at hyz
          | lt =>
            have hac := hf_trans a b c hab hbc
            simp [lexCmp, hac]
          | eq =>
            have hbc' : b = c := (hf_eq b c).mp hbc
            subst hbc'
            simp [lexCmp, hab]
        | eq =>
          have hab' : a = b := (hf_eq a b).mp hab
          subst hab'
          cases hac : f a c with
          | gt => simp [lexCmp, hac] at hyz
          | lt => simp [lexCmp, hac]
          | eq =>
            have hac' : a = c := (hf_eq a c).mp hac
            subst hac'
            rw [lexCmp, (hf_eq a a).mpr rfl] at hxy hyz ⊢
            exact ih bs cs hxy hyz

theorem strCmp_eq_iff (a b : String) : strCmp a b = .eq ↔ a = b := by
  rw [strCmp, lexCmp_eq_iff charCmp_eq_iff]
  constructor
  · intro h
    cases a
    cases b
    exact congrArg String.mk h
  · intro h
    rw [h]

theorem strCmp_swap (a b : String) : (strCmp a b).swap = strCmp b a :=
  lexCmp_swap charCmp_swap a.data b.data

theorem strCmp_lt_trans (a b c : String)
    (h1 : strCmp a b = .lt) (h2 : strCmp b c = .lt) : strCmp a c = .lt :=
  lexCmp_lt_trans charCmp_eq_iff (fun _ _ _ => charCmp_lt_trans)
    a.data b.data c.data h1 h2

theorem coordCmp_eq_iff (a b : Coordinate) : coordCmp a b = .eq ↔ a = b := by
  rw [coordCmp, lexCmp_eq_iff strCmp_eq_iff]
  cases a
  cases b
  simp [coordFields]

theorem coordCmp_swap (a b : Coordinate) : (coordCmp a b).swap = coordCmp b a :=
  lexCmp_swap strCmp_swap (coordFields a) (coordFields b)

theorem coordCmp_lt_trans {a b c : Coordinate}
    (h1 : coordCmp a b = .lt) (h2 : coordCmp b c = .lt) : coordCmp a c = .lt :=
  lexCmp_lt_trans strCmp_eq_iff strCmp_lt_trans
    (coordFields a) (coordFields b) (coordFields c) h1 h2

instance : IsTotal Coordinate CoordLE := by
  constructor
  intro a b
  by_cases h : coordCmp a b = .gt
  · right
    have hba : coordCmp b a = .lt := by
      rw [← coordCmp_swap a b, h]
      rfl
    simp [CoordLE, hba]
  · left
    exact h

instance : IsTrans Coordinate CoordLE := by
  constructor
  intro a b c hab hbc
  cases hab' : coordCmp a b with
  | gt => exact absurd hab' hab
  | eq =>
    have : a = b := (coordCmp_eq_iff a b).mp hab'
    subst this
    exact hbc
  | lt =>
    cases hbc' : coordCmp b c with
    | gt => exact absurd hbc' hbc
    | eq =>
      have : b = c := (coordCmp_eq_iff b c).mp hbc'
      subst this
      simp [CoordLE, hab']
    | lt =>
      have := coordCmp_lt_trans hab' hbc'
      simp [CoordLE, this]

instance : IsAntisymm Coordinate CoordLE := by
  constructor
  intro a b hab hba
  cases hab' : coordCmp a b with
  | eq => exact (coordCmp_eq_iff a b).mp hab'
  | gt => exact absurd hab' hab
  | lt =>
    exfalso
    apply hba
    rw [← coordCmp_swap a b, hab']
    rfl

/-- Modelled from the spec: the dependency part of the Artifact Renderer:
resolve every request, then emit a sorted, de-duplicated coordinate list
in the manifest ordering (group, then artifact). -/
def renderDeps (r : Registry) (reqs : List DepRequest) : Except GenError (List Coordinate) :=
  match resolveAll r reqs with
  | .error e => .error e
  | .ok cs => .ok (List.insertionSort CoordLE cs.dedup)

/-- Manifest text of one coordinate, emitted verbatim. -/
def coordText (c : Coordinate) : String :=
  c.group ++ ":" ++ c.artifact ++ ":" ++ c.version

/-- Modelled from the spec: one documentation-link line of the doc-index
block. -/
def linkLine (u : String) : String := "<link>" ++ u ++ "</link>"

/-- Modelled from the spec: the documentation-link block, an ordered list
matching descriptor order. -/
def renderDocBlock (d : Descriptor) : List String :=
  d.docLinks.map linkLine

/-- Modelled from the spec: the Artifact Renderer, a pure function from
descriptor and registry to rendered text lines: the manifest dependency
block and the documentation-link block. -/
def render (d : Descriptor) (r : Registry) : Except GenError (List String × List String) :=
  match renderDeps r d.deps with
  | .error e => .error e
  | .ok cs => .ok (cs.map coordText, renderDocBlock d)

/-- Splits a file at the first line equal to the marker `m`, returning the
lines strictly before it and strictly after it, or none when the marker is
absent. -/
def splitAtLine (m : String) : List String → Option (List String × List String)
  | [] => none
  | x :: xs =>
    if x = m then some ([], xs)
    else
      match splitAtLine m xs with
      | some (b, a) => some (x :: b, a)
      | none => none

/-- Modelled from the spec: the merge step of the Idempotent Writer.  If
both markers are absent, append a new marked block at the end of the file;
if the start marker is present, replace only the content strictly between
the markers; a mismatched marker pair is a fatal corruption error and the
writer refuses to guess a repair. -/
def merge (sm em : String) (t c : List String) : Except GenError (List String) :=
  match splitAtLine sm c with
  | none =>
    match splitAtLine em c with
    | none => .ok (c ++ [sm] ++ t ++ [em])
    | some _ => .error .markerCorruption
  | some (pre, rest) =>
    match splitAtLine em rest with
    | none => .error .markerCorruption
    | some (_, post) => .ok (pre ++ [sm] ++ t ++ [em] ++ post)

/-- Outcome of one write: the resulting on-disk content, whether a disk
write actually happened, and the error if the write aborted. -/
structure WriteOutcome where
  content : List String
  wroteDisk : Bool
  err : Option GenError
deriving DecidableEq

/-- Modelled from the spec: the Idempotent Writer.  It merges the rendered
text into the existing content, compares the result with the existing
content and writes to disk only when they differ; on error the file is
left untouched. -/
def write (sm em : String) (t c : List String) : WriteOutcome :=
  match merge sm em t c with
  | .error e => ⟨c, false, some e⟩
  | .ok d => if d = c then ⟨c, false, none⟩ else ⟨d, true, none⟩

/-- Modelled from the spec: one Orchestrator run over the manifest file:
render the artifacts from the descriptor and registry, then write the
manifest block; rendered content is staged fully in memory before any
write, so a rendering failure leaves the file untouched. -/
def run (d : Descriptor) (r : Registry) (sm em : String) (c : List String) : WriteOutcome :=
  match render d r with
  | .error e => ⟨c, false, some e⟩
  | .ok (depLines, _) => write sm em depLines c

namespace Project

/-- From src/scripts/configure.py: repository_name. -/
def repository_name : String := "pmsite"

/-- From src/scripts/configure.py: pretty_name. -/
def pretty_name : String := "PMSite"

/-- From src/scripts/configure.py: inception_year. -/
def inception_year : Nat := 2017

/-- From src/scripts/configure.py: jdk_version. -/
def jdk_version : Nat := 17

/-- From src/scripts/configure.py: has_javadoc, False on every call. -/
def has_javadoc : Bool := false

/-- From src/scripts/configure.py: javadoc_links, the five URLs yielded in
source order. -/
def javadoc_links : List String :=
  [ "https://stagean.machinezoo.com/javadoc/"
  , "https://noexception.machinezoo.com/javadoc/"
  , "https://hookless.machinezoo.com/javadocs/core/"
  , "https://hookless.machinezoo.com/javadocs/servlets/"
  , "https://pushmode.machinezoo.com/javadoc/" ]

/-- From src/scripts/configure.py: the dependency requests yielded by
Project.dependencies, in source order.  The use_xyz helpers of the missing
scaffolding library are symbolic names resolved through the registry; the
use calls with a literal coordinate string are explicit coordinates; the
requests inherited from the base class via super().dependencies() live in
the missing library and are not part of this repository's descriptor. -/
def dependency_requests : List DepRequest :=
  [ .symbolic "hookless"
  , .symbolic "pushmode"
  , .symbolic "slf4j"
  , .symbolic "noexception"
  , .symbolic "noexception-slf4j"
  , .symbolic "streamex"
  , .symbolic "commons-lang"
  , .symbolic "commons-math"
  , .symbolic "guava"
  , .symbolic "gson"
  , .explicitCoord ⟨"org.eclipse.jetty.websocket", "websocket-servlet", "11.0.7"⟩
  , .explicitCoord ⟨"net.mikehardy", "google-analytics-java", "2.0.11"⟩
  , .explicitCoord ⟨"cz.jiripinkas", "jsitemapgenerator", "4.5"⟩
  , .symbolic "junit"
  , .symbolic "slf4j-test" ]

/-- The pmsite descriptor assembled from src/scripts/configure.py. -/
def descriptor : Descriptor :=
  { repositoryName := repository_name
  , prettyName := pretty_name
  , inceptionYear := inception_year
  , jdkVersion := jdk_version
  , hasJavadoc := has_javadoc
  , deps := dependency_requests
  , docLinks := javadoc_links }

end Project

theorem splitAtLine_cons_self {m : String} {xs : List String} :
    splitAtLine m (m :: xs) = some ([], xs) := by
  simp [splitAtLine]

theorem splitAtLine_cons_ne {m x : String} {xs : List String} (hx : x ≠ m) :
    splitAtLine m (x :: xs) =
      (splitAtLine m xs).map (fun p => (x :: p.1, p.2)) := by
  simp only [splitAtLine, if_neg hx]
  cases hs : splitAtLine m xs with
  | none => rfl
  | some p =>
    obtain ⟨b, a⟩ := p
    rfl

theorem splitAtLine_eq_none {m : String} {c : List String} :
    splitAtLine m c = none ↔ m ∉ c := by
  induction c with
  | nil => simp [splitAtLine]
  | cons x xs ih =>
    by_cases hx : x = m
    · subst hx
      simp [splitAtLine_cons_self]
    · rw [splitAtLine_cons_ne hx, Option.map_eq_none']
      simp [List.mem_cons, ih, Ne.symm hx]

theorem splitAtLine_eq_some {m : String} {c b a : List String}
    (h : splitAtLine m c = some (b, a)) : c = b ++ m :: a ∧ m ∉ b := by
  induction c generalizing b a with
  | nil => exact Option.noConfusion h
  | cons x xs ih =>
    by_cases hx : x = m
    · subst hx
      rw [splitAtLine_cons_self] at h
      simp only [Option.some.injEq, Prod.mk.injEq] at h
      obtain ⟨hb, ha⟩ := h
      subst hb
      subst ha
      simp
    · rw [splitAtLine_cons_ne hx, Option.map_eq_some'] at h
      obtain ⟨⟨b', a'⟩, hs, hf⟩ := h
      simp only [Prod.mk.injEq] at hf
      obtain ⟨hb, ha⟩ := hf
      subst hb
      subst ha
      obtain ⟨hc, hnotin⟩ := ih hs
      subst hc
      exact ⟨by simp, by simp [List.mem_cons, hnotin, Ne.symm hx]⟩

theorem splitAtLine_append {m : String} {b a : List String} (hb : m ∉ b) :
    splitAtLine m (b ++ m :: a) = some (b, a) := by
  induction b with
  | nil => simpa using splitAtLine_cons_self
  | cons x xs ih =>
    have hx : x ≠ m := fun h => hb (h ▸ List.mem_cons_self x xs)
    have hxs : m ∉ xs := fun h => hb (List.mem_cons_of_mem x h)
    rw [List.cons_append, splitAtLine_cons_ne hx, ih hxs]
    rfl

theorem merge_insert {sm em : String} {t c : List String}
    (h1 : splitAtLine sm c = none) (h2 : splitAtLine em c = none) :
    merge sm em t c = .ok (c ++ [sm] ++ t ++ [em]) := by
  simp [merge, h1, h2]

theorem merge_replace {sm em : String} {t c pre rest mid post : List String}
    (h1 : splitAtLine sm c = some (pre, rest))
    (h2 : splitAtLine em rest = some (mid, post)) :
    merge sm em t c = .ok (pre ++ [sm] ++ t ++ [em] ++ post) := by
  simp [merge, h1, h2]

theorem merge_err_start {sm em : String} {t c pre rest : List String}
    (h1 : splitAtLine sm c = some (pre, rest))
    (h2 : splitAtLine em rest = none) :
    merge sm em t c = .error .markerCorruption := by
  simp [merge, h1, h2]

theorem merge_err_end {sm em : String} {t c : List String}
    (h1 : splitAtLine sm c = none) (p : List String × List String)
    (h2 : splitAtLine em c = some p) :
    merge sm em t c = .error .markerCorruption := by
  simp [merge, h1, h2]

theorem merge_idem {sm em : String} {t c d : List String}
    (hem : em ∉ t) (h : merge sm em t c = .ok d) :
    merge sm em t d = .ok d := by
  cases h1 : splitAtLine sm c with
  | none =>
    cases h2 : splitAtLine em c with
    | none =>
      rw [merge_insert h1 h2] at h
      replace h : c ++ [sm] ++ t ++ [em] = d := by simpa using h
      subst h
      have hsc : sm ∉ c := splitAtLine_eq_none.mp h1
      have h1' : splitAtLine sm (c ++ [sm] ++ t ++ [em]) =
          some (c, t ++ [em]) := by
        simpa using splitAtLine_append (a := t ++ [em]) hsc
      have h2' : splitAtLine em (t ++ [em]) = some (t, []) := by
        simpa using splitAtLine_append (a := ([] : List String)) hem
      rw [merge_replace h1' h2']
      simp
    | some p =>
      rw [merge_err_end h1 p h2] at h
      exact Except.noConfusion h
  | some p =>
    obtain ⟨pre, rest⟩ := p
    cases h2 : splitAtLine em rest with
    | none =>
      rw [merge_err_start h1 h2] at h
      exact Except.noConfusion h
    | some q =>
      obtain ⟨mid, post⟩ := q
      rw [merge_replace h1 h2] at h
      replace h : pre ++ [sm] ++ t ++ [em] ++ post = d := by simpa using h
      subst h
      obtain ⟨hc, hpre⟩ := splitAtLine_eq_some h1
      have h1' : splitAtLine sm (pre ++ [sm] ++ t ++ [em] ++ post) =
          some (pre, t ++ em :: post) := by
        simpa using splitAtLine_append (a := t ++ em :: post) hpre
      have h2' : splitAtLine em (t ++ em :: post) = some (t, post) :=
        splitAtLine_append hem
      rw [merge_replace h1' h2']

theorem merge_frame {sm em : String} {t pre mid post : List String}
    (hpre : sm ∉ pre) (hmid : em ∉ mid) :
    merge sm em t (pre ++ [sm] ++ mid ++ [em] ++ post) =
      .ok (pre ++ [sm] ++ t ++ [em] ++ post) := by
  have h1 : splitAtLine sm (pre ++ [sm] ++ mid ++ [em] ++ post) =
      some (pre, mid ++ em :: post) := by
    simpa using splitAtLine_append (a := mid ++ em :: post) hpre
  have h2 : splitAtLine em (mid ++ em :: post) = some (mid, post) :=
    splitAtLine_append hmid
  rw [merge_replace h1 h2]

theorem merge_corrupt {sm em : String} {t c : List String}
    (hs : sm ∈ c) (he : em ∉ c) :
    merge sm em t c = .error .markerCorruption := by
  cases h1 : splitAtLine sm c with
  | none => exact absurd hs (splitAtLine_eq_none.mp h1)
  | some p =>
    obtain ⟨pre, rest⟩ := p
    obtain ⟨hc, -⟩ := splitAtLine_eq_some h1
    have hrest : em ∉ rest := fun hmem =>
      he (hc ▸ List.mem_append_right pre (List.mem_cons_of_mem sm hmem))
    exact merge_err_start h1 (splitAtLine_eq_none.mpr hrest)

theorem resolve_eq_none {r : Registry} {n : String} :
    resolve r n = none ↔ n ∉ r.map Prod.fst := by
  induction r with
  | nil => simp [resolve]
  | cons p rest ih =>
    obtain ⟨m, c⟩ := p
    by_cases hm : m = n
    · subst hm
      simp [resolve]
    · simp [resolve, hm, ih, Ne.symm hm]

theorem resolve_mem {r : Registry} {n : String} {c : Coordinate}
    (h : resolve r n = some c) : (n, c) ∈ r := by
  induction r with
  | nil => exact Option.noConfusion h
  | cons p rest ih =>
    obtain ⟨m, c'⟩ := p
    by_cases hm : m = n
    · subst hm
      have hcc : c' = c := by simpa [resolve] using h
      subst hcc
      exact List.mem_cons_self _ _
    · simp only [resolve, if_neg hm] at h
      exact List.mem_cons_of_mem _ (ih h)

theorem resolve_of_mem_nodup {r : Registry} {n : String} {c : Coordinate}
    (nd : (r.map Prod.fst).Nodup) (h : (n, c) ∈ r) : resolve r n = some c := by
  induction r with
  | nil => exact absurd h (List.not_mem_nil _)
  | cons p rest ih =>
    obtain ⟨m, c'⟩ := p
    rw [List.map_cons, List.nodup_cons] at nd
    rcases List.mem_cons.mp h with heq | hmem
    · injection heq with hn hc
      subst hn
      subst hc
      simp [resolve]
    · have hm : m ≠ n := by
        intro hmn
        subst hmn
        exact nd.1 (List.mem_map.mpr ⟨(m, c), hmem, rfl⟩)
      simp [resolve, hm, ih nd.2 hmem]

theorem resolve_perm {r1 r2 : Registry}
    (hperm : r1.Perm r2) (nd : (r1.map Prod.fst).Nodup) (n : String) :
    resolve r1 n = resolve r2 n := by
  have nd2 : (r2.map Prod.fst).Nodup := ((hperm.map Prod.fst).nodup_iff).mp nd
  cases hc : resolve r1 n with
  | some c =>
    exact (resolve_of_mem_nodup nd2 (hperm.subset (resolve_mem hc))).symm
  | none =>
    have hn : n ∉ r1.map Prod.fst := resolve_eq_none.mp hc
    have hn2 : n ∉ r2.map Prod.fst := fun hmem =>
      hn ((hperm.map Prod.fst).mem_iff.mpr hmem)
    exact (resolve_eq_none.mpr hn2).symm

theorem resolveDep_congr {r1 r2 : Registry}
    (h : ∀ n, resolve r1 n = resolve r2 n) (q : DepRequest) :
    resolveDep r1 q = resolveDep r2 q := by
  cases q with
  | symbolic n => simp [resolveDep, h n]
  | explicitCoord c => rfl

theorem resolveAll_congr {r1 r2 : Registry}
    (h : ∀ n, resolve r1 n = resolve r2 n) (reqs : List DepRequest) :
    resolveAll r1 reqs = resolveAll r2 reqs := by
  induction reqs with
  | nil => rfl
  | cons q qs ih => simp [resolveAll, resolveDep_congr h q, ih]

theorem resolveAll_ok_mem {r : Registry} {reqs : List DepRequest}
    {cs : List Coordinate} (h : resolveAll r reqs = .ok cs) :
    ∀ q ∈ reqs, ∃ c, resolveDep r q = .ok c := by
  induction reqs generalizing cs with
  | nil => simp
  | cons q qs ih =>
    intro q' hq'
    cases hd : resolveDep r q with
    | error e =>
      rw [resolveAll, hd] at h
      exact Except.noConfusion h
    | ok c =>
      cases hall : resolveAll r qs with
      | error e =>
        rw [resolveAll, hd, hall] at h
        exact Except.noConfusion h
      | ok cs' =>
        rcases List.mem_cons.mp hq' with rfl | hmem
        · exact ⟨c, hd⟩
        · exact ih hall q' hmem

/-- The resolution of one request as an optional coordinate. -/
def okPart (e : Except GenError Coordinate) : Option Coordinate :=
  match e with
  | .ok c => some c
  | .error _ => none

theorem resolveAll_eq_filterMap {r : Registry} {reqs : List DepRequest}
    (h : ∀ q ∈ reqs, ∃ c, resolveDep r q = .ok c) :
    resolveAll r reqs =
      .ok (reqs.filterMap (fun q => okPart (resolveDep r q))) := by
  induction reqs with
  | nil => rfl
  | cons q qs ih =>
    obtain ⟨c, hc⟩ := h q (List.mem_cons_self _ _)
    have hqs := ih (fun q' hq' => h q' (List.mem_cons_of_mem q hq'))
    simp [resolveAll, hc, hqs, List.filterMap_cons, okPart]

theorem renderDeps_eq {r : Registry} {reqs : List DepRequest}
    (h : ∀ q ∈ reqs, ∃ c, resolveDep r q = .ok c) :
    renderDeps r reqs =
      .ok (List.insertionSort CoordLE
        (reqs.filterMap (fun q => okPart (resolveDep r q))).dedup) := by
  rw [renderDeps, resolveAll_eq_filterMap h]

theorem resolveAll_unresolved {r : Registry} {reqs : List DepRequest}
    (h : ∃ n, DepRequest.symbolic n ∈ reqs ∧ resolve r n = none) :
    ∃ n, DepRequest.symbolic n ∈ reqs ∧ resolve r n = none ∧
      resolveAll r reqs = .error (.unresolvedDependency n) := by
  induction reqs with
  | nil =>
    obtain ⟨n, hn, -⟩ := h
    exact absurd hn (List.not_mem_nil _)
  | cons q qs ih =>
    obtain ⟨n, hn, hres⟩ := h
    cases q with
    | symbolic m =>
      cases hm : resolve r m with
      | none =>
        refine ⟨m, List.mem_cons_self _ _, hm, ?_⟩
        simp [resolveAll, resolveDep, hm]
      | some c =>
        have hqs : DepRequest.symbolic n ∈ qs := by
          rcases List.mem_cons.mp hn with heq | hmem
          · injection heq with hnm
            subst hnm
            rw [hres] at hm
            exact Option.noConfusion hm
          · exact hmem
        obtain ⟨n', hn', hres', hall⟩ := ih ⟨n, hqs, hres⟩
        refine ⟨n', List.mem_cons_of_mem _ hn', hres', ?_⟩
        simp [resolveAll, resolveDep, hm, hall]
    | explicitCoord c =>
      have hqs : DepRequest.symbolic n ∈ qs := by
        rcases List.mem_cons.mp hn with heq | hmem
        · exact DepRequest.noConfusion heq
        · exact hmem
      obtain ⟨n', hn', hres', hall⟩ := ih ⟨n, hqs, hres⟩
      refine ⟨n', List.mem_cons_of_mem _ hn', hres', ?_⟩
      simp [resolveAll, resolveDep, hall]

theorem write_content_of_merge {sm em : String} {t c d : List String}
    (h : merge sm em t c = .ok d) : (write sm em t c).content = d := by
  by_cases hdc : d = c
  · subst hdc
    simp [write, h]
  · simp [write, h, hdc]

theorem write_idem {sm em : String} {t c : List String}
    (hem : em ∉ t) (herr : (write sm em t c).err = none) :
    write sm em t (write sm em t c).content =
      ⟨(write sm em t c).content, false, none⟩ := by
  cases hm : merge sm em t c with
  | error e =>
    exfalso
    simp [write, hm] at herr
  | ok m =>
    have h2 : merge sm em t m = .ok m := merge_idem hem hm
    by_cases hmc : m = c
    · subst hmc
      simp [write, h2]
    · have hw : write sm em t c = ⟨m, true, none⟩ := by simp [write, hm, hmc]
      rw [hw]
      simp [write, h2]

/-- C1: running the Orchestrator a second time on an unchanged descriptor
performs no file modification: the writer compares the merged result
against the existing content and writes only when they differ, so the
second run is a no-op (no disk write, no error, content unchanged).  The
rendered block is assumed not to contain the end-marker line, which the
spec guarantees by making the marker pair unique to the generator. -/
theorem run_idempotent (d : Descriptor) (r : Registry) (sm em : String)
    (c t doc : List String)
    (hr : render d r = .ok (t, doc)) (hem : em ∉ t)
    (herr : (run d r sm em c).err = none) :
    run d r sm em ((run d r sm em c).content) =
      ⟨(run d r sm em c).content, false, none⟩ := by
  have hrun : run d r sm em c = write sm em t c := by simp [run, hr]
  rw [hrun] at herr ⊢
  show run d r sm em (write sm em t c).content = _
  simp only [run, hr]
  exact write_idem hem herr

/-- C2: rendering is deterministic.  Two invocations of render on the same
descriptor and on two registry representations that hold the same entries
in any iteration order (and respect the one-entry-per-name invariant)
yield byte-identical artifact text; with both registries literally equal
this is the two-run equality of the claim. -/
theorem render_deterministic (d : Descriptor) (r1 r2 : Registry)
    (hperm : r1.Perm r2) (hnd : (r1.map Prod.fst).Nodup) :
    render d r1 = render d r2 := by
  have hres : ∀ n, resolve r1 n = resolve r2 n := resolve_perm hperm hnd
  simp [render, renderDeps, resolveAll_congr hres]

/-- C3: marker preservation.  Regenerating the block of a file whose
content surrounds a marker pair replaces only the lines strictly between
the markers: every line before the start marker and after the end marker
is passed through unchanged, character for character. -/
theorem write_marker_preservation (sm em : String) (t pre mid post : List String)
    (hpre : sm ∉ pre) (hmid : em ∉ mid) :
    merge sm em t (pre ++ [sm] ++ mid ++ [em] ++ post) =
      .ok (pre ++ [sm] ++ t ++ [em] ++ post) ∧
    (write sm em t (pre ++ [sm] ++ mid ++ [em] ++ post)).content =
      pre ++ [sm] ++ t ++ [em] ++ post := by
  have hm : merge sm em t (pre ++ [sm] ++ mid ++ [em] ++ post) =
      .ok (pre ++ [sm] ++ t ++ [em] ++ post) := merge_frame hpre hmid
  exact ⟨hm, write_content_of_merge hm⟩

/-- C4: explicit-coordinate precedence.  A dependency request with an
explicit coordinate, even for a logical library that is also present in
the registry, resolves to the explicit coordinate verbatim, the rendered
dependency list contains it, and the registry default is never emitted
for that request when it differs from the explicit coordinate. -/
theorem explicit_precedence (r : Registry) (n : String) (creg c : Coordinate)
    (reqs : List DepRequest) (cs : List Coordinate)
    (hreg : resolve r n = some creg)
    (hmem : DepRequest.explicitCoord c ∈ reqs)
    (hok : renderDeps r reqs = .ok cs) :
    resolveDep r (DepRequest.explicitCoord c) = .ok c ∧ c ∈ cs ∧
      (creg ≠ c → resolveDep r (DepRequest.explicitCoord c) ≠ .ok creg) := by
  refine ⟨rfl, ?_, ?_⟩
  · cases hall : resolveAll r reqs with
    | error e =>
      exfalso
      simp [renderDeps, hall] at hok
    | ok cs0 =>
      have hcs : cs = List.insertionSort CoordLE cs0.dedup := by
        have := hok
        simp [renderDeps, hall] at this
        exact this.symm
      have hallmem : ∀ q ∈ reqs, ∃ c', resolveDep r q = .ok c' :=
        resolveAll_ok_mem hall
      have hfm := resolveAll_eq_filterMap hallmem
      rw [hall] at hfm
      have hcs0 : cs0 = reqs.filterMap (fun q => okPart (resolveDep r q)) := by
        simpa using hfm
      have hc0 : c ∈ cs0 := by
        rw [hcs0]
        exact List.mem_filterMap.mpr
          ⟨DepRequest.explicitCoord c, hmem, by simp [resolveDep, okPart]⟩
      rw [hcs]
      exact ((List.perm_insertionSort CoordLE cs0.dedup).mem_iff).mpr
        (List.mem_dedup.mpr hc0)
  · intro hne hok2
    have hcc : c = creg := by simpa [resolveDep] using hok2
    exact hne hcc.symm

/-- C5: a descriptor requesting a symbolic name absent from the registry
with no explicit coordinate makes the run abort with an
UnresolvedDependencyError naming an offending symbolic name, and the
output file is not modified: its content is unchanged and no disk write
happens. -/
theorem run_unresolved_atomic (d : Descriptor) (r : Registry) (sm em : String)
    (c : List String)
    (h : ∃ n, DepRequest.symbolic n ∈ d.deps ∧ resolve r n = none) :
    ∃ n, DepRequest.symbolic n ∈ d.deps ∧ resolve r n = none ∧
      run d r sm em c = ⟨c, false, some (GenError.unresolvedDependency n)⟩ := by
  obtain ⟨n, hn, hres, hall⟩ := resolveAll_unresolved h
  exact ⟨n, hn, hres, by simp [run, render, renderDeps, hall]⟩

/-- C6: the rendered dependency list is de-duplicated and sorted in the
manifest ordering (group, then artifact, with version as the final
tiebreaker), and it is independent of the order in which the descriptor
declares its dependency requests. -/
theorem renderDeps_sorted_dedup (r : Registry) (reqs reqs' : List DepRequest)
    (cs : List Coordinate) (hok : renderDeps r reqs = .ok cs)
    (hperm : reqs'.Perm reqs) :
    cs.Sorted CoordLE ∧ cs.Nodup ∧ renderDeps r reqs' = .ok cs := by
  cases hall : resolveAll r reqs with
  | error e =>
    exfalso
    simp [renderDeps, hall] at hok
  | ok cs0 =>
    have hcs : cs = List.insertionSort CoordLE cs0.dedup := by
      have := hok
      simp [renderDeps, hall] at this
      exact this.symm
    subst hcs
    refine ⟨List.sorted_insertionSort CoordLE _, ?_, ?_⟩
    · exact ((List.perm_insertionSort CoordLE cs0.dedup).nodup_iff).mpr
        (List.nodup_dedup cs0)
    · have hallmem : ∀ q ∈ reqs, ∃ c', resolveDep r q = .ok c' :=
        resolveAll_ok_mem hall
      have hallmem' : ∀ q ∈ reqs', ∃ c', resolveDep r q = .ok c' :=
        fun q hq => hallmem q (hperm.subset hq)
      have h2 := renderDeps_eq hallmem'
      have hfm := resolveAll_eq_filterMap hallmem
      rw [hall] at hfm
      have hcs0 : cs0 = reqs.filterMap (fun q => okPart (resolveDep r q)) := by
        simpa using hfm
      rw [h2]
      congr 1
      have hperm2 : (List.insertionSort CoordLE
          ((reqs'.filterMap (fun q => okPart (resolveDep r q))).dedup)).Perm
            (List.insertionSort CoordLE cs0.dedup) := by
        refine ((List.perm_insertionSort _ _).trans ?_).trans
          (List.perm_insertionSort _ _).symm
        rw [hcs0]
        exact (hperm.filterMap _).dedup
      exact List.eq_of_perm_of_sorted hperm2
        (List.sorted_insertionSort CoordLE _) (List.sorted_insertionSort CoordLE _)

/-- C7: the documentation-link block lists the links in exactly the order
the descriptor declares them, and a descriptor extended by one appended
link renders the same block with exactly one entry appended. -/
theorem renderDocBlock_order (d d' : Descriptor) (x : String)
    (h : d'.docLinks = d.docLinks ++ [x]) :
    renderDocBlock d = d.docLinks.map linkLine ∧
      renderDocBlock d' = renderDocBlock d ++ [linkLine x] := by
  constructor
  · rfl
  · simp [renderDocBlock, h]

/-- C8: a file whose marker pair is mismatched (start marker present with
no matching end marker) makes the write abort with MarkerCorruptionError;
no repair is attempted, nothing is written to disk and the file content
is left entirely unmodified. -/
theorem write_marker_corruption (sm em : String) (t c : List String)
    (hs : sm ∈ c) (he : em ∉ c) :
    write sm em t c = ⟨c, false, some GenError.markerCorruption⟩ := by
  simp [write, merge_corrupt hs he]

/-- C9: registry override is last-write-wins.  Adding coordinates c1 and
then c2 for the same symbolic name makes a subsequent resolve of that
name return c2, and the resulting registry holds exactly one entry for
that name: the addition replaced the prior entry. -/
theorem addEntry_last_write_wins (r : Registry) (n : String) (c1 c2 : Coordinate) :
    resolve (addEntry (addEntry r n c1) n c2) n = some c2 ∧
      ((addEntry (addEntry r n c1) n c2).map Prod.fst).count n = 1 := by
  constructor
  · simp [addEntry, resolve]
  · have h0 : n ∉ ((addEntry r n c1).filter (fun p => p.1 ≠ n)).map Prod.fst := by
      intro hmem
      obtain ⟨p, hp, hfst⟩ := List.mem_map.mp hmem
      have hne := List.of_mem_filter hp
      simp only [decide_eq_true_eq] at hne
      exact hne hfst
    have hkeys : (addEntry (addEntry r n c1) n c2).map Prod.fst =
        n :: ((addEntry r n c1).filter (fun p => p.1 ≠ n)).map Prod.fst := rfl
    rw [hkeys, List.count_cons_self, List.count_eq_zero.mpr h0]

/-- C10: in the pmsite descriptor the generated-documentation toggle and
the documentation links are independent: has_javadoc is False while
javadoc_links yields exactly five URLs in fixed order, so the descriptor
still supplies a non-empty ordered documentation-link list. -/
theorem pmsite_doclinks_present_without_javadoc :
    Project.has_javadoc = false ∧
      Project.descriptor.hasJavadoc = false ∧
      Project.javadoc_links.length = 5 ∧
      Project.descriptor.docLinks = Project.javadoc_links ∧
      Project.javadoc_links ≠ [] ∧
      renderDocBlock Project.descriptor = Project.javadoc_links.map linkLine := by
  refine ⟨rfl, rfl, rfl, rfl, ?_, rfl⟩
  simp [Project.javadoc_links]

/-- A pinned registry coordinate used by the concrete checks below. -/
def guavaCoord : Coordinate := ⟨"com.google.guava", "guava", "33.0.0-jre"⟩

/-- Another pinned registry coordinate for the concrete checks. -/
def gsonCoord : Coordinate := ⟨"com.google.code.gson", "gson", "2.10.1"⟩

/-- The explicit coordinate of the spec scenario. -/
def fooCoord : Coordinate := ⟨"org.acme", "foo", "1.2"⟩

/-- An explicit override for a library also present in the registry. -/
def guavaOverride : Coordinate := ⟨"com.google.guava", "guava", "999"⟩

/-- A small concrete registry. -/
def demoRegistry : Registry := [("guava", guavaCoord)]

/-- A two-entry registry. -/
def demoRegistry2 : Registry := [("guava", guavaCoord), ("gson", gsonCoord)]

/-- The same two entries in the other iteration order. -/
def demoRegistry2Swapped : Registry := [("gson", gsonCoord), ("guava", guavaCoord)]

/-- Concrete dependency requests: one symbolic, one explicit. -/
def demoDeps : List DepRequest := [.symbolic "guava", .explicitCoord fooCoord]

/-- A concrete descriptor for the checks. -/
def demoDescriptor : Descriptor :=
  ⟨"pmsite", "PMSite", 2017, 17, false, demoDeps,
    ["https://pushmode.machinezoo.com/javadoc/"]⟩

/-- The manifest lines rendered from demoDescriptor and demoRegistry. -/
def demoDepLines : List String :=
  ["com.google.guava:guava:33.0.0-jre", "org.acme:foo:1.2"]

/-- The doc-link lines rendered from demoDescriptor. -/
def demoDocLines : List String :=
  ["<link>https://pushmode.machinezoo.com/javadoc/</link>"]

/-- demoDescriptor with one more documentation link appended. -/
def demoDescriptor2 : Descriptor :=
  { demoDescriptor with docLinks := demoDescriptor.docLinks ++ ["https://example.org/"] }

/-- A descriptor requesting a symbolic name absent from the registry. -/
def badDescriptor : Descriptor :=
  ⟨"pmsite", "PMSite", 2017, 17, false, [.symbolic "nonexistent"], []⟩

/-- C1 witness at a concrete descriptor, registry and empty file. -/
theorem run_idempotent_witness :
    run demoDescriptor demoRegistry "S" "E"
        ((run demoDescriptor demoRegistry "S" "E" []).content) =
      ⟨(run demoDescriptor demoRegistry "S" "E" []).content, false, none⟩ :=
  run_idempotent demoDescriptor demoRegistry "S" "E" [] demoDepLines demoDocLines
    (by rfl) (by decide) (by rfl)

/-- C2 witness: the same registry entries in two iteration orders. -/
theorem render_deterministic_witness :
    render demoDescriptor demoRegistry2 = render demoDescriptor demoRegistry2Swapped :=
  render_deterministic demoDescriptor demoRegistry2 demoRegistry2Swapped
    (List.Perm.swap _ _ _) (by decide)

/-- C3 witness: hand-authored lines around a marker block survive a
regeneration unchanged. -/
theorem write_marker_preservation_witness :
    merge "S" "E" ["new"] (["user1"] ++ ["S"] ++ ["old"] ++ ["E"] ++ ["user2"]) =
      .ok (["user1"] ++ ["S"] ++ ["new"] ++ ["E"] ++ ["user2"]) ∧
    (write "S" "E" ["new"] (["user1"] ++ ["S"] ++ ["old"] ++ ["E"] ++ ["user2"])).content =
      ["user1"] ++ ["S"] ++ ["new"] ++ ["E"] ++ ["user2"] :=
  write_marker_preservation "S" "E" ["new"] ["user1"] ["old"] ["user2"]
    (by decide) (by decide)

/-- C4 witness: an explicit guava coordinate wins over the registry's
guava default. -/
theorem explicit_precedence_witness :
    resolveDep demoRegistry (DepRequest.explicitCoord guavaOverride) = .ok guavaOverride ∧
      guavaOverride ∈ [guavaOverride] ∧
      (guavaCoord ≠ guavaOverride →
        resolveDep demoRegistry (DepRequest.explicitCoord guavaOverride) ≠ .ok guavaCoord) :=
  explicit_precedence demoRegistry "guava" guavaCoord guavaOverride
    [DepRequest.explicitCoord guavaOverride] [guavaOverride]
    (by rfl) (by decide) (by rfl)

/-- C5 witness: a run over a descriptor with an unregistered symbolic name
aborts naming it and leaves the file as it was. -/
theorem run_unresolved_atomic_witness :
    ∃ n, DepRequest.symbolic n ∈ badDescriptor.deps ∧ resolve demoRegistry n = none ∧
      run badDescriptor demoRegistry "S" "E" ["keep"] =
        ⟨["keep"], false, some (GenError.unresolvedDependency n)⟩ :=
  run_unresolved_atomic badDescriptor demoRegistry "S" "E" ["keep"]
    ⟨"nonexistent", by decide, by rfl⟩

/-- C6 witness: the two declaration orders of the concrete requests render
the same sorted de-duplicated list. -/
theorem renderDeps_sorted_dedup_witness :
    ([guavaCoord, fooCoord] : List Coordinate).Sorted CoordLE ∧
      ([guavaCoord, fooCoord] : List Coordinate).Nodup ∧
      renderDeps demoRegistry
        [DepRequest.explicitCoord fooCoord, DepRequest.symbolic "guava"] =
          .ok [guavaCoord, fooCoord] :=
  renderDeps_sorted_dedup demoRegistry demoDeps
    [DepRequest.explicitCoord fooCoord, DepRequest.symbolic "guava"]
    [guavaCoord, fooCoord] (by rfl) (List.Perm.swap _ _ _)

/-- C7 witness: appending one documentation link appends exactly one
rendered entry. -/
theorem renderDocBlock_order_witness :
    renderDocBlock demoDescriptor = demoDescriptor.docLinks.map linkLine ∧
      renderDocBlock demoDescriptor2 =
        renderDocBlock demoDescriptor ++ [linkLine "https://example.org/"] :=
  renderDocBlock_order demoDescriptor demoDescriptor2 "https://example.org/" (by rfl)

/-- C8 witness: a dangling start marker aborts the write and leaves the
file unmodified. -/
theorem write_marker_corruption_witness :
    write "S" "E" ["new"] ["user1", "S", "dangling"] =
      ⟨["user1", "S", "dangling"], false, some GenError.markerCorruption⟩ :=
  write_marker_corruption "S" "E" ["new"] ["user1", "S", "dangling"]
    (by decide) (by decide)

end PmSite
